import Mathlib

/-!
Verification development for the HoneIDE editor text-editing core
(`native/linux/examples/demo_editor.rs` and its per-platform copies).

Rust strings are modelled at two levels:
* a line of the buffer is a `List Char` (a Rust `String` seen as its
  code points); byte offsets into it are computed with `charUtf8Len`;
* the token-JSON strings handled by `validate_tokens_json` are modelled
  as their UTF-8 byte sequences, `List Nat` (each element `< 256`).

Fallible Rust operations (slicing at a non-boundary or out-of-range
index, `Vec` indexing/removal/insertion, `String::insert`,
`replace_range`, `drain`) are modelled as `Option`-returning functions;
`none` marks a Rust panic.  Floating-point fields of the `DemoEditor`
struct (`scroll_y`, `view_height`, `char_width`, `line_height`) and the
FFI pointer are omitted: no claim refers to them, and the operations
modelled here never read them except in `scroll_to_cursor`, which
mutates only `scroll_y`.
-/

/-- Number of bytes of the UTF-8 encoding of a character
(Rust `char::len_utf8`). -/
def charUtf8Len (c : Char) : Nat :=
  if c.toNat < 128 then 1
  else if c.toNat < 2048 then 2
  else if c.toNat < 65536 then 3
  else 4

/-- UTF-8 encoding of a character, as byte values. -/
def encodeChar (c : Char) : List Nat :=
  let n := c.toNat
  if n < 128 then [n]
  else if n < 2048 then [192 + n / 64, 128 + n % 64]
  else if n < 65536 then [224 + n / 4096, 128 + (n / 64) % 64, 128 + n % 64]
  else [240 + n / 262144, 128 + (n / 4096) % 64, 128 + (n / 64) % 64, 128 + n % 64]

/-- UTF-8 byte length of a list of characters (Rust `str::len`). -/
def byteLen : List Char → Nat
  | [] => 0
  | c :: rest => charUtf8Len c + byteLen rest

/-- UTF-8 bytes of a list of characters (Rust `str::as_bytes`). -/
def encodeStr (l : List Char) : List Nat :=
  (l.map encodeChar).flatten

/-- UTF-8 bytes of a string literal, convenience wrapper. -/
def strBytes (s : String) : List Nat :=
  encodeStr s.toList

/-- Split a character list at a byte offset.  `some (p, q)` when `col`
is a character boundary (`l = p ++ q` with `col = byteLen p`), `none`
when `col` is out of range or inside a multi-byte character — the
situations where a Rust string slice `&s[..col]` / `&s[col..]` panics. -/
def splitAtByteOff (l : List Char) (col : Nat) : Option (List Char × List Char) :=
  if col = 0 then some ([], l)
  else
    match l with
    | [] => none
    | c :: rest =>
      if charUtf8Len c ≤ col then
        (splitAtByteOff rest (col - charUtf8Len c)).map (fun p => (c :: p.1, p.2))
      else none

/-- Rust `String::replace_range (a..b, "")`: `none` models the panic when
`a > b`, an offset is out of range, or an offset is not a boundary. -/
def replaceRangeEmpty (l : List Char) (a b : Nat) : Option (List Char) :=
  if a ≤ b then do
    let (pre, rest) ← splitAtByteOff l a
    let (_, post) ← splitAtByteOff rest (b - a)
    some (pre ++ post)
  else none

/-- Rust `String::truncate n`: no-op when `n` exceeds the length, panic
(`none`) when `n` is in range but not a character boundary. -/
def truncateBytes (l : List Char) (n : Nat) : Option (List Char) :=
  if byteLen l < n then some l
  else (splitAtByteOff l n).map (·.1)

/-- Rust `Vec::remove i`: returns the removed element and the remaining
vector; `none` models the out-of-range panic. -/
def vecRemove (l : List α) (i : Nat) : Option (α × List α) :=
  if h : i < l.length then some (l.get ⟨i, h⟩, l.eraseIdx i) else none

/-- Rust `Vec::insert i x`: `none` models the panic when `i > len`. -/
def vecInsert (l : List α) (i : Nat) (x : α) : Option (List α) :=
  if i ≤ l.length then some (l.take i ++ x :: l.drop i) else none

/-- Rust `Vec::drain (a..=b)`: removes indices `a..=b`; `none` models the
panic when the range is invalid (`a > b + 1` cannot occur for `Nat`
arguments used below; `b + 1 > len` panics). -/
def drainIncl (l : List α) (a b : Nat) : Option (List α) :=
  if a ≤ b + 1 ∧ b + 1 ≤ l.length then some (l.take a ++ l.drop (b + 1)) else none

/-- Rust `str::split('\n')` collected to a list; always non-empty. -/
def splitOnNewline : List Char → List (List Char)
  | [] => [[]]
  | c :: rest =>
    if c = '\n' then [] :: splitOnNewline rest
    else
      match splitOnNewline rest with
      | p :: ps => (c :: p) :: ps
      | [] => [[c]]

/-- The `DemoEditor` struct of `demo_editor.rs`, restricted to the fields
the text-editing operations read and write.  `original_lines` stores
`(text, tokens_json)` pairs; the token JSON is kept as UTF-8 bytes. -/
structure DemoEditor where
  lines : List (List Char)
  originalLines : List (List Char × List Nat)
  lineOrigins : List Nat
  cursorLine : Nat
  cursorCol : Nat
  selAnchor : Option (Nat × Nat)
deriving DecidableEq

/-- Rust `DemoEditor::has_selection`. -/
def hasSelection (st : DemoEditor) : Bool :=
  match st.selAnchor with
  | some (al, ac) => al != st.cursorLine || ac != st.cursorCol
  | none => false

/-- Rust `DemoEditor::selection_range`: the anchor and cursor ordered
lexicographically by `(line, col)`. -/
def selectionRange (st : DemoEditor) : Option (Nat × Nat × Nat × Nat) :=
  match st.selAnchor with
  | none => none
  | some (al, ac) =>
    if al < st.cursorLine ∨ (al = st.cursorLine ∧ ac ≤ st.cursorCol) then
      some (al, ac, st.cursorLine, st.cursorCol)
    else
      some (st.cursorLine, st.cursorCol, al, ac)

/-- Rust `DemoEditor::clamp_cursor`.  Note: it clamps `cursor_col` only to the
byte length of the line, not to a character boundary. -/
def clamp_cursor (st : DemoEditor) : Option DemoEditor := do
  let st :=
    if st.lines.length ≤ st.cursorLine then
      { st with cursorLine := st.lines.length - 1 }
    else st
  let line ← st.lines.get? st.cursorLine
  if byteLen line < st.cursorCol then
    some { st with cursorCol := byteLen line }
  else some st

/-- Rust `DemoEditor::select_all`. -/
def select_all (st : DemoEditor) : Option DemoEditor := do
  let last := st.lines.length - 1
  let lastLine ← st.lines.get? last
  some { st with selAnchor := some (0, 0), cursorLine := last,
                 cursorCol := byteLen lastLine }

/-- Rust `DemoEditor::delete_selection`. -/
def delete_selection (st : DemoEditor) : Option DemoEditor := do
  match selectionRange st with
  | some (sl, sc, el, ec) =>
    if sl = el then do
      let line ← st.lines.get? sl
      let line' ← replaceRangeEmpty line sc ec
      let origins' ← drainIncl st.lineOrigins (sl + 1) el
      some { st with lines := st.lines.set sl line', lineOrigins := origins',
                     cursorLine := sl, cursorCol := sc, selAnchor := none }
    else do
      let endLine ← st.lines.get? el
      let (_, tail) ← splitAtByteOff endLine ec
      let startLine ← st.lines.get? sl
      let head ← truncateBytes startLine sc
      let lines' ← drainIncl (st.lines.set sl (head ++ tail)) (sl + 1) el
      let origins' ← drainIncl st.lineOrigins (sl + 1) el
      some { st with lines := lines', lineOrigins := origins',
                     cursorLine := sl, cursorCol := sc, selAnchor := none }
  | none => some { st with selAnchor := none }

/-- One character inserted at the cursor, then the cursor advanced by its
UTF-8 length — the body of the `for ch in part.chars()` loops of
`insert_text`; iterated over the character list. -/
def insertChars : DemoEditor → List Char → Option DemoEditor
  | st, [] => some st
  | st, c :: cs => do
    let line ← st.lines.get? st.cursorLine
    let (pre, post) ← splitAtByteOff line st.cursorCol
    insertChars
      { st with lines := st.lines.set st.cursorLine (pre ++ c :: post),
                cursorCol := st.cursorCol + charUtf8Len c } cs

/-- The line-splitting block shared by `insert_text` (per `\n` segment)
and `insert_newline`: the tail after the cursor becomes a new line below,
inheriting the origin of the line it split from. -/
def splitLineAtCursor (st : DemoEditor) : Option DemoEditor := do
  let line ← st.lines.get? st.cursorLine
  let (_, tail) ← splitAtByteOff line st.cursorCol
  let head ← truncateBytes line st.cursorCol
  let cl := st.cursorLine + 1
  let lines' ← vecInsert (st.lines.set st.cursorLine head) cl tail
  let origin ← st.lineOrigins.get? (cl - 1)
  let origins' ← vecInsert st.lineOrigins cl origin
  some { st with lines := lines', lineOrigins := origins',
                 cursorLine := cl, cursorCol := 0 }

/-- The per-segment loop of `insert_text`: each further `\n`-segment
splits the line at the cursor and then inserts its characters. -/
def insertParts : DemoEditor → List (List Char) → Option DemoEditor
  | st, [] => some st
  | st, part :: ps => do
    let st ← splitLineAtCursor st
    let st ← insertChars st part
    insertParts st ps

/-- Rust `DemoEditor::insert_text` (scroll-to-cursor omitted, see header). -/
def insert_text (st : DemoEditor) (text : List Char) : Option DemoEditor := do
  let st ← if hasSelection st then delete_selection st else pure st
  let st ←
    match splitOnNewline text with
    | [] => pure st
    | first :: rest => do
      let st ← insertChars st first
      insertParts st rest
  some { st with selAnchor := none }

/-- Rust `DemoEditor::insert_newline`. -/
def insert_newline (st : DemoEditor) : Option DemoEditor := do
  let st ← if hasSelection st then delete_selection st else pure st
  let st ← splitLineAtCursor st
  some { st with selAnchor := none }

/-- Rust `DemoEditor::delete_backward`. -/
def delete_backward (st : DemoEditor) : Option DemoEditor := do
  if hasSelection st then delete_selection st
  else if 0 < st.cursorCol then do
    let line ← st.lines.get? st.cursorLine
    let (pre, _) ← splitAtByteOff line st.cursorCol
    let prevCharStart := byteLen pre.dropLast
    let line' ← replaceRangeEmpty line prevCharStart st.cursorCol
    some { st with lines := st.lines.set st.cursorLine line',
                   cursorCol := prevCharStart, selAnchor := none }
  else if 0 < st.cursorLine then do
    let (_, origins') ← vecRemove st.lineOrigins st.cursorLine
    let (currentLine, lines') ← vecRemove st.lines st.cursorLine
    let cl := st.cursorLine - 1
    let prevLine ← lines'.get? cl
    some { st with lines := lines'.set cl (prevLine ++ currentLine),
                   lineOrigins := origins', cursorLine := cl,
                   cursorCol := byteLen prevLine, selAnchor := none }
  else some { st with selAnchor := none }

/-- Rust `DemoEditor::delete_forward`. -/
def delete_forward (st : DemoEditor) : Option DemoEditor := do
  if hasSelection st then delete_selection st
  else do
    let line ← st.lines.get? st.cursorLine
    let lineLen := byteLen line
    if st.cursorCol < lineLen then do
      let (_, post) ← splitAtByteOff line st.cursorCol
      let nextCharEnd :=
        match post with
        | c0 :: _ :: _ => st.cursorCol + charUtf8Len c0
        | _ => lineLen
      let line' ← replaceRangeEmpty line st.cursorCol nextCharEnd
      some { st with lines := st.lines.set st.cursorLine line', selAnchor := none }
    else if st.cursorLine + 1 < st.lines.length then do
      let (_, origins') ← vecRemove st.lineOrigins (st.cursorLine + 1)
      let (nextLine, lines') ← vecRemove st.lines (st.cursorLine + 1)
      some { st with lines := lines'.set st.cursorLine (line ++ nextLine),
                     lineOrigins := origins', selAnchor := none }
    else some { st with selAnchor := none }

/-- Rust `DemoEditor::move_left`. -/
def move_left (st : DemoEditor) (extendSel : Bool) : Option DemoEditor := do
  let st :=
    if extendSel ∧ st.selAnchor = none then
      { st with selAnchor := some (st.cursorLine, st.cursorCol) }
    else st
  if ¬extendSel ∧ hasSelection st then
    let st :=
      match selectionRange st with
      | some (sl, sc, _, _) => { st with cursorLine := sl, cursorCol := sc }
      | none => st
    some { st with selAnchor := none }
  else do
    let st ←
      if 0 < st.cursorCol then do
        let line ← st.lines.get? st.cursorLine
        let (pre, _) ← splitAtByteOff line st.cursorCol
        pure { st with cursorCol := byteLen pre.dropLast }
      else if 0 < st.cursorLine then do
        let prevLine ← st.lines.get? (st.cursorLine - 1)
        pure { st with cursorLine := st.cursorLine - 1, cursorCol := byteLen prevLine }
      else pure st
    if ¬extendSel then some { st with selAnchor := none } else some st

/-- Rust `DemoEditor::move_right`. -/
def move_right (st : DemoEditor) (extendSel : Bool) : Option DemoEditor := do
  let st :=
    if extendSel ∧ st.selAnchor = none then
      { st with selAnchor := some (st.cursorLine, st.cursorCol) }
    else st
  if ¬extendSel ∧ hasSelection st then
    let st :=
      match selectionRange st with
      | some (_, _, el, ec) => { st with cursorLine := el, cursorCol := ec }
      | none => st
    some { st with selAnchor := none }
  else do
    let line ← st.lines.get? st.cursorLine
    let lineLen := byteLen line
    let st ←
      if st.cursorCol < lineLen then do
        let (_, post) ← splitAtByteOff line st.cursorCol
        let nextCharEnd :=
          match post with
          | c0 :: _ :: _ => st.cursorCol + charUtf8Len c0
          | _ => lineLen
        pure { st with cursorCol := nextCharEnd }
      else if st.cursorLine + 1 < st.lines.length then
        pure { st with cursorLine := st.cursorLine + 1, cursorCol := 0 }
      else pure st
    if ¬extendSel then some { st with selAnchor := none } else some st

/-- Rust `DemoEditor::move_up`.  Unlike `move_left` / `move_right`, the
selection-collapse branch does not return: the upward motion is applied
afterwards as well (scroll-to-cursor omitted). -/
def move_up (st : DemoEditor) (extendSel : Bool) : Option DemoEditor := do
  let st :=
    if extendSel ∧ st.selAnchor = none then
      { st with selAnchor := some (st.cursorLine, st.cursorCol) }
    else st
  let st :=
    if ¬extendSel ∧ hasSelection st then
      let st :=
        match selectionRange st with
        | some (sl, sc, _, _) => { st with cursorLine := sl, cursorCol := sc }
        | none => st
      { st with selAnchor := none }
    else st
  let st ←
    if 0 < st.cursorLine then
      clamp_cursor { st with cursorLine := st.cursorLine - 1 }
    else pure st
  if ¬extendSel then some { st with selAnchor := none } else some st

/-- Rust `DemoEditor::move_down`.  Same collapse-then-move structure as
`move_up` (scroll-to-cursor omitted). -/
def move_down (st : DemoEditor) (extendSel : Bool) : Option DemoEditor := do
  let st :=
    if extendSel ∧ st.selAnchor = none then
      { st with selAnchor := some (st.cursorLine, st.cursorCol) }
    else st
  let st :=
    if ¬extendSel ∧ hasSelection st then
      let st :=
        match selectionRange st with
        | some (_, _, el, ec) => { st with cursorLine := el, cursorCol := ec }
        | none => st
      { st with selAnchor := none }
    else st
  let st ←
    if st.cursorLine + 1 < st.lines.length then
      clamp_cursor { st with cursorLine := st.cursorLine + 1 }
    else pure st
  if ¬extendSel then some { st with selAnchor := none } else some st

/-- Rust `DemoEditor::move_to_beginning_of_line`: no selection-collapse branch
at all — the cursor column simply becomes 0. -/
def move_to_beginning_of_line (st : DemoEditor) (extendSel : Bool) : Option DemoEditor :=
  let st :=
    if extendSel ∧ st.selAnchor = none then
      { st with selAnchor := some (st.cursorLine, st.cursorCol) }
    else st
  let st := { st with cursorCol := 0 }
  if ¬extendSel then some { st with selAnchor := none } else some st

/-- Rust `DemoEditor::move_to_end_of_line`: no selection-collapse branch. -/
def move_to_end_of_line (st : DemoEditor) (extendSel : Bool) : Option DemoEditor := do
  let st :=
    if extendSel ∧ st.selAnchor = none then
      { st with selAnchor := some (st.cursorLine, st.cursorCol) }
    else st
  let line ← st.lines.get? st.cursorLine
  let st := { st with cursorCol := byteLen line }
  if ¬extendSel then some { st with selAnchor := none } else some st

/-- Rust `DemoEditor::insert_tab`. -/
def insert_tab (st : DemoEditor) : Option DemoEditor := do
  let st ← if hasSelection st then delete_selection st else pure st
  insert_text st [' ', ' ']

/-! ## Token remapping (`validate_tokens_json` and helpers) -/

/-- Predicate `is_word_byte` of `validate_tokens_json`: ASCII alphanumeric or `_`. -/
def isWordByte (b : Nat) : Bool :=
  (48 ≤ b && b ≤ 57) || (65 ≤ b && b ≤ 90) || (97 ≤ b && b ≤ 122) || b == 95

/-- ASCII decimal digit byte. -/
def isDigitByte (b : Nat) : Bool :=
  48 ≤ b && b ≤ 57

/-- Length of the longest common byte prefix (the first `while` loop of
`validate_tokens_json`). -/
def commonPrefixLen : List Nat → List Nat → Nat
  | a :: as, b :: bs => if a = b then commonPrefixLen as bs + 1 else 0
  | _, _ => 0

/-- The second `while` loop of `validate_tokens_json`: longest common
suffix of the two byte strings, computed on their reversals, stopped by
the two bounds `orig_len - prefix_len` and `curr_len - prefix_len`. -/
def commonSuffixLen : List Nat → List Nat → Nat → Nat → Nat
  | a :: as, b :: bs, b1 + 1, b2 + 1 =>
    if a = b then commonSuffixLen as bs b1 b2 + 1 else 0
  | _, _, _, _ => 0

/-- The `while prefix_len > 0 && is_word_byte(orig_bytes[prefix_len - 1])`
loop: back the prefix boundary out of a word. -/
def shrinkPfx (origB : List Nat) : Nat → Nat
  | 0 => 0
  | k + 1 => if isWordByte (origB.getD k 0) then shrinkPfx origB k else k + 1

/-- The `while suffix_len > 0 && is_word_byte(orig_bytes[orig_len - suffix_len])`
loop: push the suffix boundary forward out of a word. -/
def shrinkSfx (origB : List Nat) (origLen : Nat) : Nat → Nat
  | 0 => 0
  | k + 1 =>
    if isWordByte (origB.getD (origLen - (k + 1)) 0) then shrinkSfx origB origLen k
    else k + 1

/-- Rust `str::find` for a byte-string needle: byte index of the first
occurrence. -/
def findSub : List Nat → List Nat → Option Nat
  | l, sub =>
    if sub.isPrefixOf l then some 0
    else
      match l with
      | [] => none
      | _ :: rest => (findSub rest sub).map (· + 1)

/-- Number of leading ASCII-digit bytes (Rust
`rest.find(|c: char| !c.is_ascii_digit()).unwrap_or(rest.len())`). -/
def countLeadingDigits : List Nat → Nat
  | [] => 0
  | b :: rest => if isDigitByte b then countLeadingDigits rest + 1 else 0

/-- Decimal value of a digit-byte list. -/
def parseNatBytes (l : List Nat) : Nat :=
  l.foldl (fun acc b => acc * 10 + (b - 48)) 0

/-- Constant `usize::MAX + 1`: Rust `str::parse::<usize>` fails above this. -/
def usizeLimit : Nat := 2 ^ 64

/-- Helper `extract_json_int` of `demo_editor.rs`: find `key`, read the digit
run after it, fail on an empty run or `usize` overflow. -/
def extract_json_int (s key : List Nat) : Option Nat := do
  let pos ← findSub s key
  let rest := s.drop (pos + key.length)
  let stop := countLeadingDigits rest
  if stop = 0 then none
  else
    let v := parseNatBytes (rest.take stop)
    if v < usizeLimit then some v else none

/-- Helper `extract_json_str` of `demo_editor.rs`: the bytes after `key` up to
the next `"` byte; empty on any failure. -/
def extract_json_str (s key : List Nat) : List Nat :=
  match findSub s key with
  | some pos =>
    let rest := s.drop (pos + key.length)
    match findSub rest [34] with
    | some stop => rest.take stop
    | none => []
  | none => []

/-- The inner brace-matching loop of the token scan: having consumed a
`{` (depth `d`), take bytes until the depth returns to zero (that byte
included) or the input ends; returns `(object bytes, remaining bytes)`. -/
def takeObj : List Nat → Nat → List Nat × List Nat
  | [], _ => ([], [])
  | b :: rest, depth =>
    let depth' := if b = 123 then depth + 1 else if b = 125 then depth - 1 else depth
    if depth' = 0 then ([b], rest)
    else
      let pr := takeObj rest depth'
      (b :: pr.1, pr.2)

/-- The outer `while i < json_len` scan of `validate_tokens_json`: every
top-level `{…}` chunk of the byte string, in order.  The fuel argument is
only a structural-termination device: every step consumes at least one
byte, so `l.length` fuel (supplied by `scanObjs`) never runs out. -/
def scanObjsF : Nat → List Nat → List (List Nat)
  | 0, _ => []
  | _, [] => []
  | fuel + 1, b :: rest =>
    if b = 123 then
      let pr := takeObj rest 1
      (123 :: pr.1) :: scanObjsF fuel pr.2
    else scanObjsF fuel rest

/-- Top-level `{…}` chunks of a byte string. -/
def scanObjs (l : List Nat) : List (List Nat) :=
  scanObjsF l.length l

/-- The default color `#d4d4d4` of the remapper, as bytes. -/
def defaultColor : List Nat := strBytes ("#d4d4d4")

/-- The default style `normal` of the remapper, as bytes. -/
def defaultStyle : List Nat := strBytes ("normal")

/-- The `for p in s..e.min(orig_len)` loop of `validate_tokens_json`:
paint each original position that maps into the preserved prefix or the
(delta-shifted) preserved suffix; positions in the changed middle are
skipped.  The fuel argument equals `stop` at the top call, which bounds
the number of iterations `stop - p`. -/
def paintF (c st : List Nat) (pfx oce : Nat) (delta : Int) (currLen : Nat) :
    Nat → Nat → Nat → List (List Nat) × List (List Nat) →
    List (List Nat) × List (List Nat)
  | 0, _, _, cs => cs
  | fuel + 1, p, stop, cs =>
    if p < stop then
      let cpOpt : Option Int :=
        if p < pfx then some (p : Int)
        else if oce ≤ p then some ((p : Int) + delta)
        else none
      let cs' :=
        match cpOpt with
        | some cp =>
          if 0 ≤ cp ∧ cp.toNat < currLen then
            (cs.1.set cp.toNat c, cs.2.set cp.toNat st)
          else cs
        | none => cs
      paintF c st pfx oce delta currLen fuel (p + 1) stop cs'
    else cs

/-- Processing of one scanned `{…}` chunk: parse `s`/`e` (skip the chunk
if either fails), default the color/style when absent, and paint. -/
def applyObj (cs : List (List Nat) × List (List Nat)) (obj : List Nat)
    (pfx oce origLen currLen : Nat) (delta : Int) :
    List (List Nat) × List (List Nat) :=
  match extract_json_int obj (strBytes ("\"s\":")),
        extract_json_int obj (strBytes ("\"e\":")) with
  | some s, some e =>
    let c0 := extract_json_str obj (strBytes ("\"c\":\""))
    let st0 := extract_json_str obj (strBytes ("\"st\":\""))
    let c := if c0 = [] then defaultColor else c0
    let st := if st0 = [] then defaultStyle else st0
    paintF c st pfx oce delta currLen (min e origLen) s (min e origLen) cs
  | _, _ => cs

/-- A coalesced output span of the remapper: half-open byte range with
color and style bytes. -/
structure TokenSpan where
  s : Nat
  e : Nat
  c : List Nat
  st : List Nat
deriving DecidableEq

/-- The coalescing `for j in 1..=curr_len` loop of
`validate_tokens_json`, emitting structured spans.  Fuel is
`currLen + 1` at the top call, one unit per iteration. -/
def coalesceF (colors styles : List (List Nat)) (currLen : Nat) :
    Nat → Nat → Nat → List TokenSpan
  | 0, _, _ => []
  | fuel + 1, spanStart, j =>
    if j ≤ currLen then
      if j = currLen ∨ colors.getD j [] ≠ colors.getD spanStart []
          ∨ styles.getD j [] ≠ styles.getD spanStart [] then
        { s := spanStart, e := j, c := colors.getD spanStart [],
          st := styles.getD spanStart [] } :: coalesceF colors styles currLen fuel j (j + 1)
      else coalesceF colors styles currLen fuel spanStart (j + 1)
    else []

/-- The `prefix_len` of `validate_tokens_json` after both loops: the
common byte-prefix length retreated to a word boundary. -/
def pfxAligned (origB currB : List Nat) : Nat :=
  shrinkPfx origB (commonPrefixLen origB currB)

/-- The `suffix_len` of `validate_tokens_json` after both loops: the
common byte-suffix length (bounded so it cannot overlap the prefix)
advanced to a word boundary. -/
def sfxAligned (origB currB : List Nat) : Nat :=
  shrinkSfx origB origB.length
    (commonSuffixLen origB.reverse currB.reverse
      (origB.length - commonPrefixLen origB currB)
      (currB.length - commonPrefixLen origB currB))

/-- The `colors` / `styles` arrays of `validate_tokens_json` after the
token-scanning loop: every scanned `{…}` chunk painted over the
all-default arrays, with `orig_change_end = orig_len - suffix_len` and
`delta = curr_len - orig_len`. -/
def paintAll (tokensJson origB currB : List Nat) :
    List (List Nat) × List (List Nat) :=
  (scanObjs tokensJson).foldl
    (fun acc obj => applyObj acc obj (pfxAligned origB currB)
      (origB.length - sfxAligned origB currB) origB.length currB.length
      ((currB.length : Int) - (origB.length : Int)))
    (List.replicate currB.length defaultColor,
     List.replicate currB.length defaultStyle)

/-- Function `validate_tokens_json` up to (injective) output formatting: the list
of coalesced spans.  The `if` mirrors the early `return "[]"`. -/
def remapSpans (tokensJson origB currB : List Nat) : List TokenSpan :=
  if tokensJson = strBytes ("[]") ∨ currB = [] then []
  else
    coalesceF (paintAll tokensJson origB currB).1
      (paintAll tokensJson origB currB).2 currB.length (currB.length + 1) 0 1

/-- Decimal ASCII bytes of a number. -/
def natToBytes (n : Nat) : List Nat :=
  (Nat.toDigits 10 n).map Char.toNat

/-- The `format!` call of the coalescing loop, as bytes. -/
def renderSpan (sp : TokenSpan) : List Nat :=
  strBytes ("\x7b\"s\":") ++ natToBytes sp.s ++ strBytes (",\"e\":") ++ natToBytes sp.e
    ++ strBytes (",\"c\":\"") ++ sp.c ++ strBytes ("\",\"st\":\"") ++ sp.st
    ++ strBytes ("\"\x7d")

/-- The final `format!` of the function, joining the rendered spans
with commas inside square brackets, as bytes.  On the empty list it
yields exactly the `"[]"` of the early return. -/
def renderSpans (l : List TokenSpan) : List Nat :=
  91 :: (List.intercalate [44] (l.map renderSpan) ++ [93])

/-- Function `validate_tokens_json` of `native/linux/examples/demo_editor.rs`
(lines 118–215): remap token spans from original to current byte
positions through common prefix/suffix alignment; input and output are
the UTF-8 bytes of the JSON strings. -/
def validate_tokens_json (tokensJson origB currB : List Nat) : List Nat :=
  renderSpans (remapSpans tokensJson origB currB)

/-- Function `validate_tokens_json` of `native/android/src/demo_jni.rs`
(lines 116–188).  The Android source is byte-for-byte identical to the
Linux one apart from whitespace and one redundant semicolon, including
its private helpers `extract_json_int` / `extract_json_str`; the
embedding therefore shares those helper definitions and repeats the
body. -/
def android_validate_tokens_json (tokensJson origB currB : List Nat) : List Nat :=
  renderSpans (remapSpans tokensJson origB currB)

/-- Rust `DemoEditor::tokens_for_line`: short-circuit to the stored original
tokens when the line text is unchanged, otherwise remap. -/
def tokens_for_line (st : DemoEditor) (idx : Nat) : Option (List Nat) := do
  let origin ← st.lineOrigins.get? idx
  let (origText, origTokens) ← st.originalLines.get? origin
  let currentText ← st.lines.get? idx
  if currentText = origText then pure origTokens
  else pure (validate_tokens_json origTokens (encodeStr origText) (encodeStr currentText))

/-! ## Auxiliary definitions used by the statements -/

/-- Iterated delete: `n` successive `delete_backward` calls. -/
def iterateDelete : Nat → DemoEditor → Option DemoEditor
  | 0, st => some st
  | n + 1, st => (delete_backward st).bind (iterateDelete n)

/-- A well-formed two-line all-ASCII starting buffer: lines `["", "ab"]`,
cursor `(0,0)`, no selection, one origin per line. -/
def bugState0 : DemoEditor :=
  ⟨[[], ['a', 'b']], [], [0, 1], 0, 0, none⟩

/-- The operation sequence `insert_text "é"`, `move_down`, `move_left`,
`move_up` (all without extending), applied to `bugState0`. -/
def bugSeq : Option DemoEditor :=
  (insert_text bugState0 ['é']).bind fun s1 =>
  (move_down s1 false).bind fun s2 =>
  (move_left s2 false).bind fun s3 =>
  move_up s3 false

/-- Predicate `Contig l a b`: the spans of `l` tile the byte range `[a, b)` exactly,
in order, each span non-empty. -/
def Contig : List TokenSpan → Nat → Nat → Prop
  | [], a, b => a = b
  | sp :: rest, a, b => sp.s = a ∧ a < sp.e ∧ Contig rest sp.e b


/-- The UTF-8 bytes of the token JSON of the remap scenario of the spec:
three colored word spans over `"foo bar baz"` (see
`remap_word_preservation`, which certifies this is `strBytes` of that
JSON text). -/
def c6json : List Nat := [91, 123, 34, 115, 34, 58, 48, 44, 34, 101, 34, 58, 51, 44, 34, 99, 34, 58, 34, 35, 102, 102, 48, 48, 48, 48, 34, 44, 34, 115, 116, 34, 58, 34, 110, 111, 114, 109, 97, 108, 34, 125, 44, 123, 34, 115, 34, 58, 52, 44, 34, 101, 34, 58, 55, 44, 34, 99, 34, 58, 34, 35, 48, 48, 102, 102, 48, 48, 34, 44, 34, 115, 116, 34, 58, 34, 110, 111, 114, 109, 97, 108, 34, 125, 44, 123, 34, 115, 34, 58, 56, 44, 34, 101, 34, 58, 49, 49, 44, 34, 99, 34, 58, 34, 35, 48, 48, 48, 48, 102, 102, 34, 44, 34, 115, 116, 34, 58, 34, 110, 111, 114, 109, 97, 108, 34, 125, 93]

/-- First `\x7b…\x7d` chunk of `c6json`. -/
def c6o1 : List Nat := [123, 34, 115, 34, 58, 48, 44, 34, 101, 34, 58, 51, 44, 34, 99, 34, 58, 34, 35, 102, 102, 48, 48, 48, 48, 34, 44, 34, 115, 116, 34, 58, 34, 110, 111, 114, 109, 97, 108, 34, 125]

/-- Second `\x7b…\x7d` chunk of `c6json`. -/
def c6o2 : List Nat := [123, 34, 115, 34, 58, 52, 44, 34, 101, 34, 58, 55, 44, 34, 99, 34, 58, 34, 35, 48, 48, 102, 102, 48, 48, 34, 44, 34, 115, 116, 34, 58, 34, 110, 111, 114, 109, 97, 108, 34, 125]

/-- Third `\x7b…\x7d` chunk of `c6json`. -/
def c6o3 : List Nat := [123, 34, 115, 34, 58, 56, 44, 34, 101, 34, 58, 49, 49, 44, 34, 99, 34, 58, 34, 35, 48, 48, 48, 48, 102, 102, 34, 44, 34, 115, 116, 34, 58, 34, 110, 111, 114, 109, 97, 108, 34, 125]

/-- UTF-8 bytes of `"foo bar baz"`. -/
def c6orig : List Nat := [102, 111, 111, 32, 98, 97, 114, 32, 98, 97, 122]

/-- UTF-8 bytes of `"foo qux baz"`. -/
def c6curr : List Nat := [102, 111, 111, 32, 113, 117, 120, 32, 98, 97, 122]

/-- The color array after painting the first (and second) token object:
`"foo"` keeps its color, everything else is still the default. -/
def c6colorsA : List (List Nat) :=
  [strBytes ("#ff0000"), strBytes ("#ff0000"), strBytes ("#ff0000"),
   defaultColor, defaultColor, defaultColor, defaultColor, defaultColor,
   defaultColor, defaultColor, defaultColor]

/-- The color array after painting all three token objects: `"foo"` and
`"baz"` colored, the whole changed middle region at the default. -/
def c6colorsB : List (List Nat) :=
  [strBytes ("#ff0000"), strBytes ("#ff0000"), strBytes ("#ff0000"),
   defaultColor, defaultColor, defaultColor, defaultColor, defaultColor,
   strBytes ("#0000ff"), strBytes ("#0000ff"), strBytes ("#0000ff")]

/-- The style array of the remap scenario: `normal` everywhere. -/
def c6styles : List (List Nat) := List.replicate 11 (strBytes ("normal"))

/-! ## Byte-offset and list lemmas -/

theorem one_le_charUtf8Len (c : Char) : 1 ≤ charUtf8Len c := by
  unfold charUtf8Len
  split
  · decide
  split
  · decide
  split
  · decide
  · decide

theorem byteLen_append (p q : List Char) :
    byteLen (p ++ q) = byteLen p + byteLen q := by
  induction p with
  | nil => simp [byteLen]
  | cons c p ih => simp [byteLen, ih]; omega

theorem byteLen_pos {p : List Char} (h : p ≠ []) : 0 < byteLen p := by
  cases p with
  | nil => exact absurd rfl h
  | cons c p =>
    have := one_le_charUtf8Len c
    simp only [byteLen]
    omega

theorem splitAtByteOff_append (p q : List Char) :
    splitAtByteOff (p ++ q) (byteLen p) = some (p, q) := by
  induction p with
  | nil =>
    show splitAtByteOff q 0 = some ([], q)
    unfold splitAtByteOff
    simp
  | cons c p ih =>
    have h1 := one_le_charUtf8Len c
    show splitAtByteOff (c :: (p ++ q)) (charUtf8Len c + byteLen p) = _
    unfold splitAtByteOff
    rw [if_neg (by omega)]
    change (if charUtf8Len c ≤ charUtf8Len c + byteLen p then
        (splitAtByteOff (p ++ q) (charUtf8Len c + byteLen p - charUtf8Len c)).map
          (fun r => (c :: r.1, r.2))
      else none) = _
    rw [if_pos (by omega), Nat.add_sub_cancel_left, ih]
    rfl

theorem get?_set_self {α} (l : List α) (n : Nat) (a : α) (h : n < l.length) :
    (l.set n a).get? n = some a := by
  induction l generalizing n with
  | nil => simp at h
  | cons x xs ih =>
    cases n with
    | zero => rfl
    | succ n =>
      simp only [List.set]
      simpa using ih n (by simpa using h)

theorem set_of_get? {α} {l : List α} {n : Nat} {a : α} (h : l.get? n = some a) :
    l.set n a = l := by
  induction l generalizing n with
  | nil => simp at h
  | cons x xs ih =>
    cases n with
    | zero => simp at h; simp [h]
    | succ n =>
      simp only [List.get?] at h
      simp [List.set, ih h]

theorem length_of_get? {α} {l : List α} {n : Nat} {a : α} (h : l.get? n = some a) :
    n < l.length := by
  by_contra hn
  push_neg at hn
  rw [List.get?_eq_none.mpr hn] at h
  exact Option.noConfusion h

theorem get?_eraseIdx_of_lt {α} (l : List α) (n m : Nat) (h : m < n) :
    (l.eraseIdx n).get? m = l.get? m := by
  induction l generalizing n m with
  | nil => simp [List.eraseIdx]
  | cons x xs ih =>
    cases n with
    | zero => omega
    | succ n =>
      cases m with
      | zero => rfl
      | succ m =>
        simp only [List.eraseIdx, List.get?]
        exact ih n m (by omega)

theorem get?_eq_getD {α} {l : List α} {n : Nat} (d : α) (h : n < l.length) :
    l.get? n = some (l.getD n d) := by
  cases hq : l.get? n with
  | none =>
    rw [List.get?_eq_none] at hq
    omega
  | some a =>
    rw [List.getD_eq_get?, hq]
    rfl

theorem byteLen_dropLast_add {p : List Char} (h : p ≠ []) :
    byteLen p = byteLen p.dropLast + charUtf8Len (p.getLast h) := by
  conv_lhs => rw [← List.dropLast_append_getLast h]
  rw [byteLen_append]
  simp [byteLen]

theorem replaceRangeEmpty_dropLast (pre post : List Char) (h : pre ≠ []) :
    replaceRangeEmpty (pre ++ post) (byteLen pre.dropLast) (byteLen pre) =
      some (pre.dropLast ++ post) := by
  have hb := byteLen_dropLast_add h
  unfold replaceRangeEmpty
  rw [if_pos (by omega)]
  have hsplit : pre ++ post = pre.dropLast ++ (pre.getLast h :: post) := by
    conv_lhs => rw [← List.dropLast_append_getLast h]
    simp
  rw [hsplit, splitAtByteOff_append]
  have hsub : byteLen pre - byteLen pre.dropLast = charUtf8Len (pre.getLast h) := by
    omega
  have hone := splitAtByteOff_append [pre.getLast h] post
  simp only [byteLen, Nat.add_zero, List.singleton_append] at hone
  show (splitAtByteOff (pre.getLast h :: post) (byteLen pre - byteLen pre.dropLast)).bind _ = _
  rw [hsub, hone]
  rfl

/-! ## Editing-operation lemmas -/

theorem insertChars_spec (cs : List Char) :
    ∀ (st : DemoEditor) (pre post : List Char),
      st.lines.get? st.cursorLine = some (pre ++ post) →
      st.cursorCol = byteLen pre →
      insertChars st cs =
        some { st with lines := st.lines.set st.cursorLine (pre ++ cs ++ post),
                       cursorCol := byteLen (pre ++ cs) } := by
  induction cs with
  | nil =>
    intro st pre post hline hcol
    show some st = _
    simp only [List.append_nil]
    rw [set_of_get? hline, ← hcol]
  | cons c cs ih =>
    intro st pre post hline hcol
    show (st.lines.get? st.cursorLine).bind _ = _
    rw [hline]
    show (splitAtByteOff (pre ++ post) st.cursorCol).bind _ = _
    rw [hcol, splitAtByteOff_append]
    show insertChars
        { st with lines := st.lines.set st.cursorLine (pre ++ c :: post),
                  cursorCol := byteLen pre + charUtf8Len c } cs = _
    rw [ih _ (pre ++ [c]) post
      (by
        rw [show pre ++ c :: post = (pre ++ [c]) ++ post by simp]
        exact get?_set_self _ _ _ (length_of_get? hline))
      (by rw [byteLen_append]; simp [byteLen])]
    simp only [Option.some.injEq, List.set_set, List.append_assoc,
      List.singleton_append]

theorem splitOnNewline_no_newline {s : List Char} (h : '\n' ∉ s) :
    splitOnNewline s = [s] := by
  induction s with
  | nil => rfl
  | cons c cs ih =>
    simp only [List.mem_cons, not_or] at h
    unfold splitOnNewline
    rw [if_neg (fun hc => h.1 hc.symm)]
    rw [ih h.2]

theorem insert_text_single (st : DemoEditor) (s pre post : List Char)
    (hsel : hasSelection st = false)
    (hline : st.lines.get? st.cursorLine = some (pre ++ post))
    (hcol : st.cursorCol = byteLen pre)
    (hnl : '\n' ∉ s) :
    insert_text st s =
      some { st with lines := st.lines.set st.cursorLine (pre ++ s ++ post),
                     cursorCol := byteLen (pre ++ s), selAnchor := none } := by
  unfold insert_text
  rw [hsel, if_neg (by decide), splitOnNewline_no_newline hnl]
  simp only [Option.pure_def, Option.bind_eq_bind, Option.some_bind]
  rw [insertChars_spec s st pre post hline hcol]
  simp only [Option.some_bind, insertParts]

theorem hasSelection_of_none {st : DemoEditor} (h : st.selAnchor = none) :
    hasSelection st = false := by
  unfold hasSelection
  rw [h]

theorem delete_backward_char (st : DemoEditor) (pre post : List Char)
    (hsel : hasSelection st = false)
    (hpre : pre ≠ [])
    (hline : st.lines.get? st.cursorLine = some (pre ++ post))
    (hcol : st.cursorCol = byteLen pre) :
    delete_backward st =
      some { st with lines := st.lines.set st.cursorLine (pre.dropLast ++ post),
                     cursorCol := byteLen pre.dropLast, selAnchor := none } := by
  unfold delete_backward
  rw [hsel, if_neg (by decide)]
  rw [if_pos (show 0 < st.cursorCol by rw [hcol]; exact byteLen_pos hpre)]
  simp only [Option.pure_def, Option.bind_eq_bind]
  rw [hline]
  simp only [Option.some_bind]
  rw [hcol, splitAtByteOff_append]
  simp only [Option.some_bind]
  rw [replaceRangeEmpty_dropLast pre post hpre]
  simp only [Option.some_bind]

theorem iterateDelete_spec (u : List Char) :
    ∀ (st : DemoEditor) (pre post : List Char),
      st.selAnchor = none →
      st.lines.get? st.cursorLine = some (pre ++ u ++ post) →
      st.cursorCol = byteLen (pre ++ u) →
      iterateDelete u.length st =
        some { st with lines := st.lines.set st.cursorLine (pre ++ post),
                       cursorCol := byteLen pre, selAnchor := none } := by
  induction u using List.reverseRecOn with
  | nil =>
    intro st pre post hanchor hline hcol
    show some st = _
    simp only [List.append_nil] at hline hcol
    rw [set_of_get? hline, ← hcol, ← hanchor]
  | append_singleton u c ih =>
    intro st pre post hanchor hline hcol
    have hlen : (u ++ [c]).length = u.length + 1 := by simp
    rw [hlen]
    show (delete_backward st).bind (iterateDelete u.length) = _
    have hd := delete_backward_char st (pre ++ (u ++ [c])) post
      (hasSelection_of_none hanchor) (by simp)
      (by simpa [List.append_assoc] using hline)
      (by simpa using hcol)
    rw [hd]
    simp only [Option.some_bind]
    have hdl : (pre ++ (u ++ [c])).dropLast = pre ++ u := by
      rw [← List.append_assoc]
      exact List.dropLast_concat
    rw [hdl]
    have hcl : st.cursorLine < st.lines.length := length_of_get? hline
    rw [ih _ pre post rfl
      (by
        show (st.lines.set st.cursorLine (pre ++ u ++ post)).get? st.cursorLine = _
        exact get?_set_self _ _ _ hcl)
      rfl]
    simp only [Option.some.injEq, List.set_set]

/-! ## Claim theorems -/

/-- C7 (amended): from a state with no active selection and the cursor
mid-line on a character boundary, `insert_text s` for a non-empty `s`
without newlines followed by one `delete_backward` per **code point** of
`s` (the amendment: the original claim counted `len(s)` bytes) restores
the line list and the cursor position. -/
theorem insert_delete_roundtrip (st : DemoEditor) (s pre post : List Char)
    (hsel : hasSelection st = false)
    (hline : st.lines.get? st.cursorLine = some (pre ++ post))
    (hcol : st.cursorCol = byteLen pre)
    (hpre : pre ≠ []) (hpost : post ≠ [])
    (hs : s ≠ []) (hnl : '\n' ∉ s) :
    ∃ st', (insert_text st s).bind (iterateDelete s.length) = some st' ∧
      st'.lines = st.lines ∧ st'.cursorLine = st.cursorLine ∧
      st'.cursorCol = st.cursorCol := by
  rw [insert_text_single st s pre post hsel hline hcol hnl]
  simp only [Option.some_bind]
  have hcl : st.cursorLine < st.lines.length := length_of_get? hline
  rw [iterateDelete_spec s _ pre post rfl (get?_set_self _ _ _ hcl) rfl]
  refine ⟨_, rfl, ?_, rfl, hcol.symm⟩
  show (st.lines.set _ (pre ++ s ++ post)).set _ (pre ++ post) = st.lines
  rw [List.set_set, set_of_get? hline]

/-- C7 witness: line `"abc"`, cursor `(0,1)`, `s = "xy"`. -/
theorem insert_delete_roundtrip_witness :
    ∃ st', (insert_text (⟨[['a', 'b', 'c']], [], [0], 0, 1, none⟩ : DemoEditor)
        ['x', 'y']).bind (iterateDelete (['x', 'y'] : List Char).length) = some st' ∧
      st'.lines = [['a', 'b', 'c']] ∧ st'.cursorLine = 0 ∧ st'.cursorCol = 1 :=
  insert_delete_roundtrip _ ['x', 'y'] ['a'] ['b', 'c']
    (by decide) (by decide) (by decide) (by decide) (by decide) (by decide) (by decide)

/-- C7 counterexample: with `s = "é"` (one code point, `len(s) = 2`
bytes) starting from line `"ab"` with cursor mid-line at `(0,1)`,
`insert_text` followed by `len(s) = 2` calls of `delete_backward` leaves
line `"b"` and cursor `(0,0)`: the byte-counted round trip of the claim
does not restore the line. -/
theorem roundtrip_bytecount_false :
    (strBytes ("é")).length = 2 ∧
    ((insert_text (⟨[['a', 'b']], [], [0], 0, 1, none⟩ : DemoEditor) ['é']).bind
        (iterateDelete 2)).map (fun s => (s.lines, s.cursorLine, s.cursorCol)) =
      some ([['b']], 0, 0) ∧
    ([['b']] : List (List Char)) ≠ [['a', 'b']] := by
  decide

/-- C8: `delete_backward` with no selection at column 0 of line
`cl > 0` removes line `cl` and its origin entry, appends its text to
line `cl - 1` (whose origin entry is untouched), and puts the cursor at
the join point `(cl - 1, byte length of the old line cl - 1)`. -/
theorem delete_backward_join (st : DemoEditor)
    (hsel : hasSelection st = false)
    (hcol : st.cursorCol = 0)
    (hcl : 0 < st.cursorLine)
    (hlines : st.cursorLine < st.lines.length)
    (horig : st.cursorLine < st.lineOrigins.length) :
    delete_backward st =
      some { st with
        lines := (st.lines.eraseIdx st.cursorLine).set (st.cursorLine - 1)
          (st.lines.getD (st.cursorLine - 1) [] ++ st.lines.getD st.cursorLine []),
        lineOrigins := st.lineOrigins.eraseIdx st.cursorLine,
        cursorLine := st.cursorLine - 1,
        cursorCol := byteLen (st.lines.getD (st.cursorLine - 1) []),
        selAnchor := none } ∧
      (st.lineOrigins.eraseIdx st.cursorLine).get? (st.cursorLine - 1) =
        st.lineOrigins.get? (st.cursorLine - 1) ∧
      (st.lineOrigins.eraseIdx st.cursorLine).length = st.lineOrigins.length - 1 := by
  refine ⟨?_, get?_eraseIdx_of_lt _ _ _ (by omega), ?_⟩
  · unfold delete_backward
    rw [hsel, if_neg (by decide)]
    rw [hcol, if_neg (by omega), if_pos hcl]
    simp only [Option.pure_def, Option.bind_eq_bind]
    unfold vecRemove
    rw [dif_pos horig]
    simp only [Option.some_bind]
    rw [dif_pos hlines]
    simp only [Option.some_bind]
    have hprev : (st.lines.eraseIdx st.cursorLine).get? (st.cursorLine - 1) =
        some (st.lines.getD (st.cursorLine - 1) []) := by
      rw [get?_eraseIdx_of_lt _ _ _ (by omega)]
      exact get?_eq_getD [] (by omega)
    rw [hprev]
    simp only [Option.some_bind]
    have hg : st.lines.get ⟨st.cursorLine, hlines⟩ = st.lines.getD st.cursorLine [] := by
      have h1 := get?_eq_getD ([] : List Char) hlines
      rw [List.get?_eq_get hlines] at h1
      exact Option.some.inj h1
    rw [hg]
  · rw [List.length_eraseIdx]
    simp [horig]

/-- C8 witness: the claim's scenario — lines `["foo","bar"]`, origins
`[0,1]`, cursor `(1,0)`; the join yields the single line `"foobar"`,
cursor `(0,3)`, origin list `[0]` of length 1. -/
theorem delete_backward_join_witness :
    hasSelection (⟨[['f', 'o', 'o'], ['b', 'a', 'r']], [], [0, 1], 1, 0, none⟩ :
        DemoEditor) = false ∧
    delete_backward (⟨[['f', 'o', 'o'], ['b', 'a', 'r']], [], [0, 1], 1, 0, none⟩ :
        DemoEditor) =
      some ⟨[['f', 'o', 'o', 'b', 'a', 'r']], [], [0], 0, 3, none⟩ ∧
    ([(0 : Nat)] : List Nat).length = 1 :=
  ⟨by decide,
   ((delete_backward_join
      (⟨[['f', 'o', 'o'], ['b', 'a', 'r']], [], [0, 1], 1, 0, none⟩ : DemoEditor)
      (by decide) (by decide) (by decide) (by decide) (by decide)).1).trans (by decide),
   by decide⟩

/-- C10: `insert_tab` is exactly "delete the selection if one is active,
then `insert_text`  two ASCII spaces"; in the no-selection case this
inserts the two spaces at the cursor and advances the column by 2. -/
theorem insert_tab_decomposition (st : DemoEditor) (pre post : List Char)
    (hsel : hasSelection st = false)
    (hline : st.lines.get? st.cursorLine = some (pre ++ post))
    (hcol : st.cursorCol = byteLen pre) :
    (∀ s0 : DemoEditor, insert_tab s0 =
        (if hasSelection s0 then delete_selection s0 else some s0).bind
          (fun s1 => insert_text s1 [' ', ' '])) ∧
    insert_tab st =
      some { st with lines := st.lines.set st.cursorLine (pre ++ [' ', ' '] ++ post),
                     cursorCol := st.cursorCol + 2, selAnchor := none } := by
  constructor
  · intro s0
    unfold insert_tab
    simp only [Option.pure_def, Option.bind_eq_bind]
    split
    · rfl
    · rfl
  · unfold insert_tab
    simp only [Option.pure_def, Option.bind_eq_bind]
    rw [hsel, if_neg (by decide)]
    simp only [Option.some_bind]
    rw [insert_text_single st [' ', ' '] pre post hsel hline hcol (by decide)]
    rw [byteLen_append, show byteLen [' ', ' '] = 2 from by decide, ← hcol]

/-- C10 witness: line `"ab"`, cursor `(0,1)`, no selection. -/
theorem insert_tab_decomposition_witness :
    (∀ s0 : DemoEditor, insert_tab s0 =
        (if hasSelection s0 then delete_selection s0 else some s0).bind
          (fun s1 => insert_text s1 [' ', ' '])) ∧
    insert_tab (⟨[['a', 'b']], [], [0], 0, 1, none⟩ : DemoEditor) =
      some ⟨[['a', ' ', ' ', 'b']], [], [0], 0, 3, none⟩ :=
  have h := insert_tab_decomposition (⟨[['a', 'b']], [], [0], 0, 1, none⟩ : DemoEditor)
    ['a'] ['b'] (by decide) (by decide) (by decide)
  ⟨h.1, h.2.trans (by decide)⟩

/-- C4 (amended): the remap identity holds at the `tokens_for_line`
level, via its short-circuit: whenever the current text of line `idx`
equals its origin's original text, `tokens_for_line` returns the stored
original token JSON unchanged, and `validate_tokens_json` is not
consulted.  (`remap` itself does not satisfy the identity, see the
counterexample.) -/
theorem tokens_for_line_short_circuit (st : DemoEditor) (idx origin : Nat)
    (t : List Char) (toks : List Nat)
    (ho : st.lineOrigins.get? idx = some origin)
    (hp : st.originalLines.get? origin = some (t, toks))
    (hl : st.lines.get? idx = some t) :
    tokens_for_line st idx = some toks := by
  unfold tokens_for_line
  rw [ho]
  simp only [Option.pure_def, Option.bind_eq_bind, Option.some_bind]
  rw [hp]
  simp only [Option.some_bind]
  rw [hl]
  simp only [Option.some_bind]
  simp

/-- C4 witness: a one-line buffer whose line is unchanged. -/
theorem tokens_for_line_short_circuit_witness :
    tokens_for_line
      (⟨[['f', 'o', 'o']], [(['f', 'o', 'o'], strBytes ("tok"))], [0], 0, 0, none⟩ :
        DemoEditor) 0 = some (strBytes ("tok")) :=
  tokens_for_line_short_circuit _ 0 0 ['f', 'o', 'o'] (strBytes ("tok"))
    (by decide) (by decide) (by decide)

/-- C4 counterexample: `remap(tokens, t, t) ≠ tokens` in general.  For
`t = "foo"` the common prefix is first the whole string, then the
word-boundary loop retracts it to 0 while the suffix bound stays 0, so
every position of the span is dropped and the output is the default
color over `[0,3)` — not the original token list. -/
theorem remap_identity_false :
    validate_tokens_json
        (strBytes ("[\x7b\"s\":0,\"e\":3,\"c\":\"#ff0000\",\"st\":\"bold\"\x7d]"))
        (strBytes ("foo")) (strBytes ("foo")) =
      strBytes ("[\x7b\"s\":0,\"e\":3,\"c\":\"#d4d4d4\",\"st\":\"normal\"\x7d]") ∧
    strBytes ("[\x7b\"s\":0,\"e\":3,\"c\":\"#d4d4d4\",\"st\":\"normal\"\x7d]") ≠
      strBytes ("[\x7b\"s\":0,\"e\":3,\"c\":\"#ff0000\",\"st\":\"bold\"\x7d]") := by
  decide

/-- C9: the Linux and Android copies of the token remapper are
extensionally equal on every input triple.  (Their Rust sources are
byte-identical up to whitespace, so their embeddings coincide.) -/
theorem linux_android_remap_equal :
    ∀ tokensJson origB currB : List Nat,
      validate_tokens_json tokensJson origB currB =
        android_validate_tokens_json tokensJson origB currB :=
  fun _ _ _ => rfl

/-- Characterization of `clamp_cursor` when the cursor line is in range:
only the column is clamped, to the byte length of the line (not to a
character boundary). -/
theorem clamp_cursor_spec (st : DemoEditor) (hcl : st.cursorLine < st.lines.length) :
    clamp_cursor st =
      some { st with
        cursorCol := min st.cursorCol (byteLen (st.lines.getD st.cursorLine [])) } := by
  unfold clamp_cursor
  simp only [Option.pure_def, Option.bind_eq_bind]
  rw [if_neg (Nat.not_le.mpr hcl)]
  rw [get?_eq_getD [] hcl]
  simp only [Option.some_bind]
  by_cases h : byteLen (st.lines.getD st.cursorLine []) < st.cursorCol
  · rw [if_pos h, Nat.min_eq_right (Nat.le_of_lt h)]
  · rw [if_neg h, Nat.min_eq_left (Nat.not_lt.mp h)]

/-- C2 (amended): with an active selection and `extend_selection = false`,
`move_left` / `move_right` collapse the cursor to the selection start /
end, clear the anchor, and apply no further motion — as the claim says.
But `move_up` / `move_down` collapse and then **additionally apply** the
up/down motion (line ∓ 1 with the column clamped to the target line's
byte length), and `move_to_beginning_of_line` / `move_to_end_of_line` do
not collapse to a selection edge at all: they jump to column 0 / the end
of the current cursor line and clear the anchor. -/
theorem motion_collapse_amended (st : DemoEditor) (sl sc el ec : Nat)
    (hs : hasSelection st = true)
    (hr : selectionRange st = some (sl, sc, el, ec))
    (hcl : st.cursorLine < st.lines.length)
    (hsl : sl < st.lines.length)
    (hel : el < st.lines.length) :
    move_left st false =
      some { st with cursorLine := sl, cursorCol := sc, selAnchor := none } ∧
    move_right st false =
      some { st with cursorLine := el, cursorCol := ec, selAnchor := none } ∧
    move_up st false = some { st with
      cursorLine := if 0 < sl then sl - 1 else sl,
      cursorCol := if 0 < sl then min sc (byteLen (st.lines.getD (sl - 1) [])) else sc,
      selAnchor := none } ∧
    move_down st false = some { st with
      cursorLine := if el + 1 < st.lines.length then el + 1 else el,
      cursorCol := if el + 1 < st.lines.length then
          min ec (byteLen (st.lines.getD (el + 1) []))
        else ec,
      selAnchor := none } ∧
    move_to_beginning_of_line st false =
      some { st with cursorCol := 0, selAnchor := none } ∧
    move_to_end_of_line st false =
      some { st with cursorCol := byteLen (st.lines.getD st.cursorLine []),
                     selAnchor := none } := by
  refine ⟨?_, ?_, ?_, ?_, ?_, ?_⟩
  · simp [move_left, hs, hr]
  · simp [move_right, hs, hr]
  · simp [move_up, hs, hr]
    by_cases hsl0 : 0 < sl
    · simp only [if_pos hsl0]
      rw [clamp_cursor_spec _ (by omega : sl - 1 < st.lines.length)]
      simp only [Option.some_bind]
      simp [List.getD_eq_getElem?_getD]
    · simp only [if_neg hsl0]
  · simp [move_down, hs, hr]
    by_cases hd : el + 1 < st.lines.length
    · simp only [if_pos hd]
      rw [clamp_cursor_spec _ (by omega : el + 1 < st.lines.length)]
      simp only [Option.some_bind]
      simp [List.getD_eq_getElem?_getD]
    · simp only [if_neg hd]
  · simp [move_to_beginning_of_line]
  · simp [move_to_end_of_line]
    have h := get?_eq_getD ([] : List Char) hcl
    rw [List.get?_eq_getElem?] at h
    rw [h]
    simp only [Option.some_bind]
    simp [List.getD_eq_getElem?_getD]

/-- C2 witness: buffer `["a","b","c"]`, anchor `(1,0)`, cursor `(2,0)`. -/
theorem motion_collapse_amended_witness :
    hasSelection (⟨[['a'], ['b'], ['c']], [], [0, 1, 2], 2, 0, some (1, 0)⟩ :
        DemoEditor) = true ∧
    selectionRange (⟨[['a'], ['b'], ['c']], [], [0, 1, 2], 2, 0, some (1, 0)⟩ :
        DemoEditor) = some (1, 0, 2, 0) ∧
    move_left (⟨[['a'], ['b'], ['c']], [], [0, 1, 2], 2, 0, some (1, 0)⟩ :
        DemoEditor) false = some ⟨[['a'], ['b'], ['c']], [], [0, 1, 2], 1, 0, none⟩ ∧
    move_right (⟨[['a'], ['b'], ['c']], [], [0, 1, 2], 2, 0, some (1, 0)⟩ :
        DemoEditor) false = some ⟨[['a'], ['b'], ['c']], [], [0, 1, 2], 2, 0, none⟩ ∧
    move_up (⟨[['a'], ['b'], ['c']], [], [0, 1, 2], 2, 0, some (1, 0)⟩ :
        DemoEditor) false = some ⟨[['a'], ['b'], ['c']], [], [0, 1, 2], 0, 0, none⟩ ∧
    move_down (⟨[['a'], ['b'], ['c']], [], [0, 1, 2], 2, 0, some (1, 0)⟩ :
        DemoEditor) false = some ⟨[['a'], ['b'], ['c']], [], [0, 1, 2], 2, 0, none⟩ ∧
    move_to_beginning_of_line (⟨[['a'], ['b'], ['c']], [], [0, 1, 2], 2, 0,
        some (1, 0)⟩ : DemoEditor) false =
      some ⟨[['a'], ['b'], ['c']], [], [0, 1, 2], 2, 0, none⟩ ∧
    move_to_end_of_line (⟨[['a'], ['b'], ['c']], [], [0, 1, 2], 2, 0, some (1, 0)⟩ :
        DemoEditor) false =
      some ⟨[['a'], ['b'], ['c']], [], [0, 1, 2], 2, 1, none⟩ :=
  have h := motion_collapse_amended
    (⟨[['a'], ['b'], ['c']], [], [0, 1, 2], 2, 0, some (1, 0)⟩ : DemoEditor)
    1 0 2 0 (by decide) (by decide) (by decide) (by decide) (by decide)
  ⟨by decide, by decide, h.1.trans (by decide), h.2.1.trans (by decide),
   h.2.2.1.trans (by decide), h.2.2.2.1.trans (by decide),
   h.2.2.2.2.1.trans (by decide), h.2.2.2.2.2.trans (by decide)⟩

/-- C2 counterexample: with the selection `[1,3)` active on line `"abc"`
(anchor `(0,1)`, cursor `(0,3)`), `move_to_beginning_of_line(false)`
puts the cursor at column 0, not at the selection start column 1 — so
the claim that every line-start motion collapses to the selection start
is false on the code. -/
theorem motion_collapse_claim_false :
    hasSelection (⟨[['a', 'b', 'c']], [], [0], 0, 3, some (0, 1)⟩ : DemoEditor) = true ∧
    selectionRange (⟨[['a', 'b', 'c']], [], [0], 0, 3, some (0, 1)⟩ : DemoEditor) =
      some (0, 1, 0, 3) ∧
    move_to_beginning_of_line
        (⟨[['a', 'b', 'c']], [], [0], 0, 3, some (0, 1)⟩ : DemoEditor) false =
      some ⟨[['a', 'b', 'c']], [], [0], 0, 0, none⟩ ∧
    (0 : Nat) ≠ 1 := by
  decide

/-! ## Structure of the coalesced remap output (C5) -/

theorem Contig_nil (a b : Nat) : Contig [] a b ↔ a = b := Iff.rfl

theorem Contig_cons (sp : TokenSpan) (rest : List TokenSpan) (a b : Nat) :
    Contig (sp :: rest) a b ↔ sp.s = a ∧ a < sp.e ∧ Contig rest sp.e b := Iff.rfl

theorem coalesceF_nil_of_gt (colors styles : List (List Nat)) (L : Nat) :
    ∀ (fuel s j : Nat), L < j → coalesceF colors styles L fuel s j = [] := by
  intro fuel s j h
  cases fuel with
  | zero => rfl
  | succ fuel =>
    simp only [coalesceF]
    rw [if_neg (Nat.not_le.mpr h)]

theorem coalesceF_contig (colors styles : List (List Nat)) (L : Nat) :
    ∀ (fuel s j : Nat), s < j → j ≤ L → L + 1 ≤ fuel + j →
      Contig (coalesceF colors styles L fuel s j) s L := by
  intro fuel
  induction fuel with
  | zero =>
    intro s j h1 h2 h3
    omega
  | succ fuel ih =>
    intro s j h1 h2 h3
    simp only [coalesceF]
    rw [if_pos h2]
    by_cases hcond : j = L ∨ colors.getD j [] ≠ colors.getD s []
        ∨ styles.getD j [] ≠ styles.getD s []
    · rw [if_pos hcond]
      refine (Contig_cons _ _ _ _).mpr ⟨rfl, h1, ?_⟩
      by_cases hj : j = L
      · subst hj
        rw [coalesceF_nil_of_gt colors styles j fuel j (j + 1) (by omega)]
        exact (Contig_nil _ _).mpr rfl
      · exact ih j (j + 1) (by omega) (by omega) (by omega)
    · rw [if_neg hcond]
      have hj : j ≠ L := fun h => hcond (Or.inl h)
      exact ih s (j + 1) (by omega) (by omega) (by omega)

theorem contig_le : ∀ (l : List TokenSpan) (a b : Nat), Contig l a b → a ≤ b := by
  intro l
  induction l with
  | nil =>
    intro a b h
    exact Nat.le_of_eq ((Contig_nil a b).mp h)
  | cons sp rest ih =>
    intro a b h
    obtain ⟨_, h2, h3⟩ := (Contig_cons sp rest a b).mp h
    exact Nat.le_trans (Nat.le_of_lt h2) (ih _ _ h3)

theorem contig_bounds : ∀ (l : List TokenSpan) (a b : Nat), Contig l a b →
    ∀ sp ∈ l, a ≤ sp.s ∧ sp.s < sp.e ∧ sp.e ≤ b := by
  intro l
  induction l with
  | nil =>
    intro a b _ sp hm
    simp at hm
  | cons x rest ih =>
    intro a b h sp hm
    obtain ⟨h1, h2, h3⟩ := (Contig_cons x rest a b).mp h
    rcases List.mem_cons.mp hm with rfl | hm
    · exact ⟨Nat.le_of_eq h1.symm, by omega, contig_le rest _ _ h3⟩
    · have := ih _ _ h3 sp hm
      exact ⟨by omega, this.2.1, this.2.2⟩

theorem contig_pairwise : ∀ (l : List TokenSpan) (a b : Nat), Contig l a b →
    l.Pairwise (fun x y => x.e ≤ y.s) := by
  intro l
  induction l with
  | nil => intro a b _; exact List.Pairwise.nil
  | cons x rest ih =>
    intro a b h
    obtain ⟨_, _, h3⟩ := (Contig_cons x rest a b).mp h
    exact List.Pairwise.cons
      (fun y hy => (contig_bounds rest _ _ h3 y hy).1) (ih _ _ h3)

theorem contig_cover : ∀ (l : List TokenSpan) (a b : Nat), Contig l a b →
    ∀ p, a ≤ p → p < b → ∃ sp ∈ l, sp.s ≤ p ∧ p < sp.e := by
  intro l
  induction l with
  | nil =>
    intro a b h p hp1 hp2
    have := (Contig_nil a b).mp h
    omega
  | cons x rest ih =>
    intro a b h p hp1 hp2
    obtain ⟨h1, h2, h3⟩ := (Contig_cons x rest a b).mp h
    by_cases hpe : p < x.e
    · exact ⟨x, List.mem_cons_self _ _, by omega, hpe⟩
    · obtain ⟨sp, hm, hs1, hs2⟩ := ih _ _ h3 p (by omega) hp2
      exact ⟨sp, List.mem_cons_of_mem _ hm, hs1, hs2⟩

/-- C5 (amended): whenever the original token JSON is not the literal
`"[]"` (i.e. the early empty return is not taken) and the current text
is non-empty, the coalesced span list produced by the remapper is
ordered by strictly ascending start, consists of non-empty pairwise
non-overlapping half-open ranges, and covers every byte position of
`[0, curr_len)`; indeed it tiles `[0, curr_len)` exactly (`Contig`).
The amendment: the original claim also asserted coverage for the empty
token list, where the remapper instead returns no spans at all. -/
theorem remap_spans_partition (tokensJson origB currB : List Nat)
    (ht : tokensJson ≠ strBytes ("[]")) (hc : currB ≠ []) :
    (remapSpans tokensJson origB currB).Pairwise (fun x y => x.s < y.s) ∧
    (remapSpans tokensJson origB currB).Pairwise (fun x y => x.e ≤ y.s) ∧
    (∀ sp ∈ remapSpans tokensJson origB currB, sp.s < sp.e) ∧
    (∀ p, p < currB.length →
      ∃ sp ∈ remapSpans tokensJson origB currB, sp.s ≤ p ∧ p < sp.e) ∧
    Contig (remapSpans tokensJson origB currB) 0 currB.length := by
  have hlen : 0 < currB.length := List.length_pos.mpr hc
  have hcontig : Contig (remapSpans tokensJson origB currB) 0 currB.length := by
    unfold remapSpans
    rw [if_neg (by push_neg; exact ⟨ht, hc⟩)]
    exact coalesceF_contig _ _ _ _ 0 1 (by omega) (by omega) (by omega)
  refine ⟨?_, contig_pairwise _ _ _ hcontig,
    fun sp h => (contig_bounds _ _ _ hcontig sp h).2.1,
    fun p hp => contig_cover _ _ _ hcontig p (Nat.zero_le p) hp, hcontig⟩
  have hp := contig_pairwise _ _ _ hcontig
  exact hp.imp_of_mem (fun {x y} hx _ hxy =>
    Nat.lt_of_lt_of_le (contig_bounds _ _ _ hcontig x hx).2.1 hxy)

/-- C5 witness: a one-token line remapped onto the one-byte text `"a"`. -/
theorem remap_spans_partition_witness :
    strBytes ("[\x7b\"s\":0,\"e\":1,\"c\":\"#ff0000\",\"st\":\"normal\"\x7d]") ≠
      strBytes ("[]") ∧
    strBytes ("a") ≠ ([] : List Nat) ∧
    ((remapSpans (strBytes ("[\x7b\"s\":0,\"e\":1,\"c\":\"#ff0000\",\"st\":\"normal\"\x7d]"))
        (strBytes ("a")) (strBytes ("a"))).Pairwise (fun x y => x.s < y.s) ∧
     (remapSpans (strBytes ("[\x7b\"s\":0,\"e\":1,\"c\":\"#ff0000\",\"st\":\"normal\"\x7d]"))
        (strBytes ("a")) (strBytes ("a"))).Pairwise (fun x y => x.e ≤ y.s) ∧
     (∀ sp ∈ remapSpans (strBytes ("[\x7b\"s\":0,\"e\":1,\"c\":\"#ff0000\",\"st\":\"normal\"\x7d]"))
        (strBytes ("a")) (strBytes ("a")), sp.s < sp.e) ∧
     (∀ p, p < (strBytes ("a")).length →
       ∃ sp ∈ remapSpans (strBytes ("[\x7b\"s\":0,\"e\":1,\"c\":\"#ff0000\",\"st\":\"normal\"\x7d]"))
          (strBytes ("a")) (strBytes ("a")), sp.s ≤ p ∧ p < sp.e) ∧
     Contig (remapSpans (strBytes ("[\x7b\"s\":0,\"e\":1,\"c\":\"#ff0000\",\"st\":\"normal\"\x7d]"))
        (strBytes ("a")) (strBytes ("a"))) 0 (strBytes ("a")).length) :=
  ⟨by decide, by decide,
   remap_spans_partition _ _ _ (by decide) (by decide)⟩

/-- C5 counterexample: for the empty original token list (the literal
`"[]"`) and the non-empty current text `"a"`, the remapper returns no
spans at all, so byte position 0 of the current text is not covered —
the coverage part of the claim fails. -/
theorem remap_empty_tokens_no_cover :
    0 < (strBytes ("a")).length ∧
    remapSpans (strBytes ("[]")) (strBytes ("a")) (strBytes ("a")) = [] ∧
    ¬∃ sp ∈ remapSpans (strBytes ("[]")) (strBytes ("a")) (strBytes ("a")),
        sp.s ≤ 0 ∧ 0 < sp.e := by
  refine ⟨by decide, by decide, ?_⟩
  rintro ⟨sp, hm, -⟩
  rw [show remapSpans (strBytes ("[]")) (strBytes ("a")) (strBytes ("a")) = []
    from by decide] at hm
  simp at hm

/-! ## Evaluation of the code at the failing inputs (C1, C3) and the
remap scenario (C6) -/

theorem bugSeq_eval :
    bugSeq = some (⟨[['é'], ['a', 'b']], [], [0, 1], 0, 1, none⟩ : DemoEditor) := by
  have h1 : insert_text bugState0 ['é'] =
      some (⟨[['é'], ['a', 'b']], [], [0, 1], 0, 2, none⟩ : DemoEditor) := by decide
  have h2 : move_down (⟨[['é'], ['a', 'b']], [], [0, 1], 0, 2, none⟩ : DemoEditor)
      false = some (⟨[['é'], ['a', 'b']], [], [0, 1], 1, 2, none⟩ : DemoEditor) := by
    decide
  have h3 : move_left (⟨[['é'], ['a', 'b']], [], [0, 1], 1, 2, none⟩ : DemoEditor)
      false = some (⟨[['é'], ['a', 'b']], [], [0, 1], 1, 1, none⟩ : DemoEditor) := by
    decide
  have h4 : move_up (⟨[['é'], ['a', 'b']], [], [0, 1], 1, 1, none⟩ : DemoEditor)
      false = some (⟨[['é'], ['a', 'b']], [], [0, 1], 0, 1, none⟩ : DemoEditor) := by
    decide
  unfold bugSeq
  rw [h1]
  simp only [Option.some_bind]
  rw [h2]
  simp only [Option.some_bind]
  rw [h3]
  simp only [Option.some_bind]
  rw [h4]

/-- C1 (code-bug evaluation): from the well-formed all-ASCII buffer
`bugState0` (`["", "ab"]`, cursor `(0,0)`, one origin per line), the
operation sequence `insert_text "é"`, `move_down`, `move_left`,
`move_up` leaves the cursor at byte column 1 of the line `"é"` — inside
the 2-byte character, not on a UTF-8 code-point boundary
(`splitAtByteOff` fails there), because `clamp_cursor` clamps only to
the line's byte length.  The length/index invariants also claimed by C1
do hold at this state; only the boundary clause is violated. -/
theorem clamp_cursor_boundary_violation :
    (bugState0.lines ≠ [] ∧
      bugState0.lineOrigins.length = bugState0.lines.length ∧
      bugState0.cursorLine < bugState0.lines.length ∧
      (splitAtByteOff (bugState0.lines.getD bugState0.cursorLine [])
        bugState0.cursorCol).isSome = true) ∧
    bugSeq.map (fun s => (s.lines, s.cursorLine, s.cursorCol)) =
      some ([['é'], ['a', 'b']], 0, 1) ∧
    bugSeq.map (fun s => s.lineOrigins.length = s.lines.length ∧
      s.cursorLine < s.lines.length) = some (True ∧ True) ∧
    bugSeq.map (fun s =>
      (splitAtByteOff (s.lines.getD s.cursorLine []) s.cursorCol).isSome) =
      some false := by
  rw [bugSeq_eval]
  refine ⟨by decide, by decide, ?_, by decide⟩
  simp

/-- C3 (code-bug evaluation): the state reached by `bugSeq` is reachable
from a well-formed buffer, and `move_left` on it panics — the slice
`line[..cursor_col]` at byte offset 1 of `"é"` is not on a character
boundary, so the modelled operation returns `none`. -/
theorem move_left_panics_on_reachable_state :
    bugSeq.isSome = true ∧
    bugSeq.bind (fun s => move_left s false) = none := by
  rw [bugSeq_eval]
  exact ⟨by decide, by decide⟩

set_option maxRecDepth 10000 in
/-- C6: remapping the three colored word spans of `"foo bar baz"` onto
the edited line `"foo qux baz"` keeps the original colors on the byte
ranges of `"foo"` (`[0,3)`) and `"baz"` (`[8,11)`, delta = 0 here) and
gives the whole changed middle region `[3,8)` — which covers the bytes
of `"qux"` — the default neutral color `#d4d4d4` with normal style. -/
theorem remap_word_preservation :
    c6json = strBytes ("[\x7b\"s\":0,\"e\":3,\"c\":\"#ff0000\",\"st\":\"normal\"\x7d,\x7b\"s\":4,\"e\":7,\"c\":\"#00ff00\",\"st\":\"normal\"\x7d,\x7b\"s\":8,\"e\":11,\"c\":\"#0000ff\",\"st\":\"normal\"\x7d]") ∧
    c6orig = strBytes ("foo bar baz") ∧
    c6curr = strBytes ("foo qux baz") ∧
    remapSpans c6json c6orig c6curr =
      [⟨0, 3, strBytes ("#ff0000"), strBytes ("normal")⟩,
       ⟨3, 8, defaultColor, defaultStyle⟩,
       ⟨8, 11, strBytes ("#0000ff"), strBytes ("normal")⟩] ∧
    validate_tokens_json c6json c6orig c6curr =
      strBytes ("[\x7b\"s\":0,\"e\":3,\"c\":\"#ff0000\",\"st\":\"normal\"\x7d,\x7b\"s\":3,\"e\":8,\"c\":\"#d4d4d4\",\"st\":\"normal\"\x7d,\x7b\"s\":8,\"e\":11,\"c\":\"#0000ff\",\"st\":\"normal\"\x7d]") := by
  have h1 : scanObjs c6json = [c6o1, c6o2, c6o3] := by decide
  have h2 : pfxAligned c6orig c6curr = 4 := by decide
  have h3 : sfxAligned c6orig c6curr = 4 := by decide
  have h4 : c6orig.length = 11 := by decide
  have h5 : c6curr.length = 11 := by decide
  have hoce : (11 : Nat) - 4 = 7 := by decide
  have hdelta : ((11 : Nat) : Int) - ((11 : Nat) : Int) = 0 := by decide
  have hstep1 : applyObj
      (List.replicate 11 defaultColor, List.replicate 11 defaultStyle)
      c6o1 4 7 11 11 0 = (c6colorsA, c6styles) := by decide
  have hstep2 : applyObj (c6colorsA, c6styles) c6o2 4 7 11 11 0 =
      (c6colorsA, c6styles) := by decide
  have hstep3 : applyObj (c6colorsA, c6styles) c6o3 4 7 11 11 0 =
      (c6colorsB, c6styles) := by decide
  have hpaint : paintAll c6json c6orig c6curr = (c6colorsB, c6styles) := by
    unfold paintAll
    simp only [h1, h2, h3, h4, h5, hoce, hdelta, List.foldl_cons, List.foldl_nil]
    rw [hstep1, hstep2, hstep3]
  have hspans : remapSpans c6json c6orig c6curr =
      [⟨0, 3, strBytes ("#ff0000"), strBytes ("normal")⟩,
       ⟨3, 8, defaultColor, defaultStyle⟩,
       ⟨8, 11, strBytes ("#0000ff"), strBytes ("normal")⟩] := by
    unfold remapSpans
    rw [if_neg (by decide), hpaint, h5]
    decide
  refine ⟨by decide, by decide, by decide, hspans, ?_⟩
  unfold validate_tokens_json
  rw [hspans]
  decide
